import Mathlib

/-!
Shallow embedding of the variable-height virtual list component
(`src/src/app/containers/VList/index.tsx`) and verification of its spec.

Pixel quantities (heights, scroll offsets, the container height) are modelled
as integers: the component only ever adds and compares these numbers, so the
arithmetic is exact and carries over verbatim.  An out-of-range JS array read
(`itemHeights.current[idx]` with `idx >= length`) yields `undefined`; adding it
makes the running sum `NaN`, and every subsequent `<` comparison on it is
false.  Where that behaviour is reachable (the `while` loop of
`findStartIndex`) the embedding models the read as an `Option` and the
resulting one-extra-iteration exit explicitly.
-/

namespace VList

/-- The component state visible to the claims: `scrollTop` (line 62), the
`itemHeights` ref (line 64), the spacer `height` state (line 65) and the
`renderList` state (line 66). -/
structure VListState where
  scrollTop : ℤ
  itemHeights : List ℤ
  height : ℤ
  renderList : List ℕ

/-- The init effect (lines 69–71): `itemHeights.current = new
Array(data.length).fill(estimatedItemHeight)`.  Consequently
`itemHeights.length = data.length`, an equality every later read relies on;
the embedding uses `itemHeights.length` wherever the source reads
`data.length`. -/
def initHeights (dataLength : ℕ) (estimatedItemHeight : ℤ) : List ℤ :=
  List.replicate dataLength estimatedItemHeight

/-- The function `getCumulativeHeight` (lines 74–82): `while (idx < index) h +=
itemHeights.current[idx]`, i.e. the sum of the first `index` stored heights.
Every call site of the component passes `index ≤ itemHeights.length` (line 136
passes `data.length - 1`; the render map passes an in-window index), so the
in-range sum is the exact behaviour. -/
def getCumulativeHeight (itemHeights : List ℤ) (index : ℕ) : ℤ :=
  (itemHeights.take index).sum

/-- The `while` loop of `findStartIndex` (lines 87–94): `while (sum <
scrollPosition) { sum += itemHeights.current[idx]; idx++ }`.  The array cursor
`idx` is embedded as the remaining suffix `remaining = itemHeights.drop idx`,
so that the recursion is structural; `idx` is still carried because it is the
loop's result.  An empty `remaining` is the JS read past the end of the array:
it yields `undefined`, `sum` becomes `NaN`, the next comparison `NaN <
scrollPosition` is false, and the loop exits after that one extra iteration
with `idx` already incremented — hence `idx + 1`. -/
def findStartIndexAux (remaining : List ℤ) (scrollPosition sum : ℤ) (idx : ℕ) : ℕ :=
  if sum < scrollPosition then
    match remaining with
    | itemH :: rest => findStartIndexAux rest scrollPosition (sum + itemH) (idx + 1)
    | [] => idx + 1
  else idx

/-- The function `findStartIndex` (lines 85–98): run the loop from `sum = 0`,
`idx = 0` (so `remaining` is the whole store), then `Math.max(0, idx -
bufferCount)` — which on naturals is truncated subtraction. -/
def findStartIndex (itemHeights : List ℤ) (bufferCount : ℕ) (scrollPosition : ℤ) : ℕ :=
  findStartIndexAux itemHeights scrollPosition 0 0 - bufferCount

/-- The `for` loop of `findEndIndex` (lines 103–111): starting at `i =
startIndex` with `totalHeight = 0` and `endIndex = startIndex`, add
`itemHeights.current[i]`, record `endIndex = i`, and break once `totalHeight`
exceeds the threshold `containerHeight + bufferCount * estimatedItemHeight`.
The loop bound `i < data.length` (with `data.length = itemHeights.length`) is
embedded as the remaining suffix `remaining = itemHeights.drop i` being
non-empty. -/
def findEndIndexLoop (remaining : List ℤ) (threshold totalHeight : ℤ) (endIndex i : ℕ) : ℕ :=
  match remaining with
  | [] => endIndex
  | itemH :: rest =>
    if totalHeight + itemH > threshold then i
    else findEndIndexLoop rest threshold (totalHeight + itemH) i (i + 1)

/-- The function `findEndIndex` (lines 101–115): the loop above run from
`i = startIndex` (so `remaining = itemHeights.drop startIndex`), followed by
`Math.min(data.length - 1, endIndex + bufferCount)`.  The result is an integer
because `data.length - 1` is `-1` for an empty collection. -/
def findEndIndex (itemHeights : List ℤ) (containerHeight estimatedItemHeight : ℤ)
    (bufferCount : ℕ) (startIndex : ℕ) : ℤ :=
  min ((itemHeights.length : ℤ) - 1)
    ((findEndIndexLoop (itemHeights.drop startIndex)
        (containerHeight + (bufferCount : ℤ) * estimatedItemHeight)
        0 startIndex startIndex : ℤ) + (bufferCount : ℤ))

/-- The render-list effect (lines 124–133): `Array.from({ length: endIndex -
startIndex }, (_, i) => i + startIndex)`.  A non-positive length yields the
empty array, hence `Int.toNat`. -/
def renderListOf (startIndex : ℕ) (endIndex : ℤ) : List ℕ :=
  List.range' startIndex (endIndex - startIndex).toNat

/-- The spacer-height effect (lines 135–138): `data?.length ?
getCumulativeHeight(data.length - 1) : 0`.  Its dependency array is
`[data.length]`, so this value is recomputed only when the collection length
changes — never after an `updateH` write. -/
def spacerHeight (itemHeights : List ℤ) : ℤ :=
  if itemHeights.length ≠ 0 then getCumulativeHeight itemHeights (itemHeights.length - 1) else 0

/-- The function `updateH` (lines 140–142): `itemHeights.current[idx] = h`, a
plain in-place assignment with no validation or clamping.  The component only
calls it with an in-range `idx` (an index of the rendered window), where JS
assignment and `List.set` agree. -/
def updateH (itemHeights : List ℤ) (idx : ℕ) (h : ℤ) : List ℤ :=
  itemHeights.set idx h

/-- The `updateH` callback at component level: it writes the `itemHeights` ref
and invokes no state setter, so `scrollTop`, `height` and `renderList` are
untouched. -/
def updateHState (s : VListState) (idx : ℕ) (h : ℤ) : VListState :=
  { s with itemHeights := updateH s.itemHeights idx h }

/-- A sequence of `updateH` writes `(idx, h)`, applied left to right. -/
def applyWrites (itemHeights : List ℤ) (ws : List (ℕ × ℤ)) : List ℤ :=
  ws.foldl (fun H p => updateH H p.1 p.2) itemHeights

/-- Fuel-indexed variant of the `findStartIndex` loop, used to count loop
iterations: each entry into the loop body consumes one unit of fuel, and
`none` means the loop is still running when the fuel runs out. -/
def findStartIndexFuel (itemHeights : List ℤ) (scrollPosition : ℤ) :
    ℕ → ℤ → ℕ → Option ℕ
  | 0, _, _ => none
  | fuel + 1, sum, idx =>
    if sum < scrollPosition then
      match itemHeights[idx]? with
      | some itemH => findStartIndexFuel itemHeights scrollPosition fuel (sum + itemH) (idx + 1)
      | none => some (idx + 1)
    else some idx

/-- Start index as the words of the spec describe it: the smallest `s` with
`cumulativeHeight (s+1) > scrollTop`, minus `bufferCount`, clamped to `≥ 0`.
This is a spec-side definition, written to be compared with
`findStartIndex`. -/
def specStartIndex (itemHeights : List ℤ) (bufferCount : ℕ) (scrollTop : ℤ) : ℕ :=
  (((List.range itemHeights.length).find? fun s =>
      decide (scrollTop < getCumulativeHeight itemHeights (s + 1))).getD
    itemHeights.length) - bufferCount

/-- Every entry of the list is strictly positive (the height-store invariant
claimed by the spec). -/
def allPositive (itemHeights : List ℤ) : Prop :=
  ∀ x ∈ itemHeights, 0 < x

/-- Every entry of the list is non-negative. -/
def allNonneg (itemHeights : List ℤ) : Prop :=
  ∀ x ∈ itemHeights, 0 ≤ x

instance (H : List ℤ) : Decidable (allPositive H) := by
  unfold allPositive; infer_instance

instance (H : List ℤ) : Decidable (allNonneg H) := by
  unfold allNonneg; infer_instance

/-- The property of being the least index whose cumulative height reaches the
scroll offset: `k` is in range, `cumulativeHeight k ≥ scrollTop`, and every
smaller prefix sum is still below `scrollTop`. -/
def isLeastCoveredIndex (itemHeights : List ℤ) (scrollTop : ℤ) (k : ℕ) : Prop :=
  k ≤ itemHeights.length ∧ scrollTop ≤ getCumulativeHeight itemHeights k ∧
    ∀ j < k, getCumulativeHeight itemHeights j < scrollTop

instance (H : List ℤ) (t : ℤ) (k : ℕ) : Decidable (isLeastCoveredIndex H t k) := by
  unfold isLeastCoveredIndex; infer_instance

/-- Lists agreeing everywhere except possibly at one index, with equal
lengths. -/
def sameOutside (A B : List ℤ) (idx : ℕ) : Prop :=
  A.length = B.length ∧ ∀ j, j ≠ idx → A[j]? = B[j]?

/-! ### Facts about `getCumulativeHeight` -/

lemma getCumulativeHeight_zero (H : List ℤ) : getCumulativeHeight H 0 = 0 := rfl

lemma getCumulativeHeight_succ (H : List ℤ) (k : ℕ) (hk : k < H.length) :
    getCumulativeHeight H (k + 1) = getCumulativeHeight H k + H[k] :=
  List.sum_take_succ H k hk

lemma getCumulativeHeight_of_length_le (H : List ℤ) (k : ℕ) (hk : H.length ≤ k) :
    getCumulativeHeight H k = H.sum := by
  simp [getCumulativeHeight, List.take_of_length_le hk]

lemma getCumulativeHeight_le_sum (H : List ℤ) (hn : allNonneg H) (k : ℕ) :
    getCumulativeHeight H k ≤ H.sum := by
  conv_rhs => rw [← List.take_append_drop k H]
  rw [List.sum_append]
  have h0 : 0 ≤ (H.drop k).sum :=
    List.sum_nonneg fun x hx => hn x (List.mem_of_mem_drop hx)
  unfold getCumulativeHeight
  linarith

lemma getCumulativeHeight_le_succ (H : List ℤ) (hn : allNonneg H) (k : ℕ) :
    getCumulativeHeight H k ≤ getCumulativeHeight H (k + 1) := by
  rcases Nat.lt_or_ge k H.length with h | h
  · rw [getCumulativeHeight_succ H k h]
    have := hn _ (List.getElem_mem h)
    linarith
  · rw [getCumulativeHeight_of_length_le H k h,
      getCumulativeHeight_of_length_le H (k + 1) (Nat.le_succ_of_le h)]

lemma getCumulativeHeight_mono (H : List ℤ) (hn : allNonneg H) {j k : ℕ} (hjk : j ≤ k) :
    getCumulativeHeight H j ≤ getCumulativeHeight H k := by
  induction k with
  | zero =>
    obtain rfl : j = 0 := Nat.le_zero.mp hjk
    exact le_refl _
  | succ k ih =>
    rcases eq_or_lt_of_le hjk with rfl | hlt
    · exact le_refl _
    · exact le_trans (ih (Nat.lt_succ_iff.mp hlt)) (getCumulativeHeight_le_succ H hn k)

/-! ### Facts about the `findStartIndex` loop -/

lemma findStartIndexAux_nil (t sum : ℤ) (idx : ℕ) :
    findStartIndexAux [] t sum idx = if sum < t then idx + 1 else idx := rfl

lemma findStartIndexAux_cons (a : ℤ) (rest : List ℤ) (t sum : ℤ) (idx : ℕ) :
    findStartIndexAux (a :: rest) t sum idx =
      if sum < t then findStartIndexAux rest t (sum + a) (idx + 1) else idx := rfl

lemma length_le_of_drop_eq_nil {H : List ℤ} {idx : ℕ} (h : H.drop idx = []) :
    H.length ≤ idx := by
  have hlen := congrArg List.length h
  simp only [List.length_drop, List.length_nil] at hlen
  omega

lemma lt_length_of_drop_eq_cons {H : List ℤ} {idx : ℕ} {a : ℤ} {rest : List ℤ}
    (h : H.drop idx = a :: rest) : idx < H.length := by
  by_contra hge
  rw [List.drop_eq_nil_of_le (Nat.le_of_not_lt hge)] at h
  exact List.noConfusion h

/-- Loop invariant of the `findStartIndex` while loop: started at position
`idx` with the running sum `cumulativeHeight idx`, all prefix sums before
`idx` below the scroll offset, and the offset within the total height, the
loop stops exactly at the least index whose cumulative height reaches the
offset. -/
lemma findStartIndexAux_spec (H : List ℤ) (t : ℤ) :
    ∀ rem idx, H.drop idx = rem → idx ≤ H.length →
      (∀ j < idx, getCumulativeHeight H j < t) → t ≤ H.sum →
      t ≤ getCumulativeHeight H (findStartIndexAux rem t (getCumulativeHeight H idx) idx) ∧
      (∀ j < findStartIndexAux rem t (getCumulativeHeight H idx) idx,
        getCumulativeHeight H j < t) ∧
      findStartIndexAux rem t (getCumulativeHeight H idx) idx ≤ H.length := by
  intro rem
  induction rem with
  | nil =>
    intro idx hrem hidx hbelow hsum
    obtain rfl : idx = H.length := Nat.le_antisymm hidx (length_le_of_drop_eq_nil hrem)
    have hge : ¬ getCumulativeHeight H H.length < t := by
      rw [getCumulativeHeight_of_length_le H H.length (le_refl _)]
      exact not_lt.mpr hsum
    rw [findStartIndexAux_nil, if_neg hge]
    refine ⟨not_lt.mp hge, hbelow, le_refl _⟩
  | cons a rest ih =>
    intro idx hrem hidx hbelow hsum
    have hlt : idx < H.length := lt_length_of_drop_eq_cons hrem
    rw [List.drop_eq_getElem_cons hlt, List.cons.injEq] at hrem
    obtain ⟨ha, hrest⟩ := hrem
    rw [findStartIndexAux_cons]
    by_cases hc : getCumulativeHeight H idx < t
    · rw [if_pos hc]
      have hsumstep : getCumulativeHeight H idx + a = getCumulativeHeight H (idx + 1) := by
        rw [getCumulativeHeight_succ H idx hlt, ha]
      rw [hsumstep]
      refine ih (idx + 1) hrest hlt ?_ hsum
      intro j hj
      rcases Nat.lt_succ_iff_lt_or_eq.mp hj with hj' | rfl
      · exact hbelow j hj'
      · exact hc
    · rw [if_neg hc]
      exact ⟨not_lt.mp hc, hbelow, Nat.le_of_lt hlt⟩

/-- The raw loop result never exceeds `length + 1`: each iteration advances
the cursor by one, and the read past the end stops the loop immediately. -/
lemma findStartIndexAux_le (H : List ℤ) (t : ℤ) :
    ∀ rem (sum : ℤ) idx, H.drop idx = rem → idx ≤ H.length →
      findStartIndexAux rem t sum idx ≤ H.length + 1 := by
  intro rem
  induction rem with
  | nil =>
    intro sum idx _ hidx
    rw [findStartIndexAux_nil]
    split <;> omega
  | cons a rest ih =>
    intro sum idx hrem hidx
    have hlt : idx < H.length := lt_length_of_drop_eq_cons hrem
    rw [List.drop_eq_getElem_cons hlt, List.cons.injEq] at hrem
    rw [findStartIndexAux_cons]
    split
    · exact ih _ (idx + 1) hrem.2 hlt
    · omega

/-- When the scroll offset exceeds the total height, the loop walks past the
last entry and exits only through the failed (`NaN`) read, at `length + 1`. -/
lemma findStartIndexAux_over (H : List ℤ) (t : ℤ) (hn : allNonneg H) (hover : H.sum < t) :
    ∀ rem idx, H.drop idx = rem → idx ≤ H.length →
      findStartIndexAux rem t (getCumulativeHeight H idx) idx = H.length + 1 := by
  intro rem
  induction rem with
  | nil =>
    intro idx hrem hidx
    obtain rfl : idx = H.length := Nat.le_antisymm hidx (length_le_of_drop_eq_nil hrem)
    have hc : getCumulativeHeight H H.length < t := by
      rw [getCumulativeHeight_of_length_le H H.length (le_refl _)]
      exact hover
    rw [findStartIndexAux_nil, if_pos hc]
  | cons a rest ih =>
    intro idx hrem hidx
    have hlt : idx < H.length := lt_length_of_drop_eq_cons hrem
    rw [List.drop_eq_getElem_cons hlt, List.cons.injEq] at hrem
    obtain ⟨ha, hrest⟩ := hrem
    have hc : getCumulativeHeight H idx < t :=
      lt_of_le_of_lt (getCumulativeHeight_le_sum H hn idx) hover
    rw [findStartIndexAux_cons, if_pos hc]
    have hsumstep : getCumulativeHeight H idx + a = getCumulativeHeight H (idx + 1) := by
      rw [getCumulativeHeight_succ H idx hlt, ha]
    rw [hsumstep]
    exact ih (idx + 1) hrest hlt

/-! ### Facts about the `findEndIndex` loop -/

lemma findEndIndexLoop_nil (thr tot : ℤ) (e i : ℕ) :
    findEndIndexLoop [] thr tot e i = e := rfl

lemma findEndIndexLoop_cons (a : ℤ) (rest : List ℤ) (thr tot : ℤ) (e i : ℕ) :
    findEndIndexLoop (a :: rest) thr tot e i =
      if tot + a > thr then i else findEndIndexLoop rest thr (tot + a) i (i + 1) := rfl

/-- If the loop starts at an in-range position, its result stays between the
start position and the last index of the store. -/
lemma findEndIndexLoop_bounds (H : List ℤ) (thr : ℤ) :
    ∀ rem (tot : ℤ) (e i : ℕ), H.drop i = rem → i < H.length →
      i ≤ findEndIndexLoop rem thr tot e i ∧
      findEndIndexLoop rem thr tot e i ≤ H.length - 1 := by
  intro rem
  induction rem with
  | nil =>
    intro tot e i hrem hi
    exact absurd (length_le_of_drop_eq_nil hrem) (Nat.not_le_of_lt hi)
  | cons a rest ih =>
    intro tot e i hrem hi
    rw [List.drop_eq_getElem_cons hi, List.cons.injEq] at hrem
    obtain ⟨ha, hrest⟩ := hrem
    rw [findEndIndexLoop_cons]
    split
    · omega
    · rcases Nat.lt_or_ge (i + 1) H.length with h1 | h1
      · have := ih (tot + a) i (i + 1) hrest h1
        omega
      · have hnil : rest = [] := by
          rw [← hrest]
          exact List.drop_eq_nil_of_le h1
        rw [hnil, findEndIndexLoop_nil]
        omega

/-! ### The fuel-counted loop agrees with the loop -/

lemma findStartIndexFuel_succ (H : List ℤ) (t : ℤ) (fuel : ℕ) (sum : ℤ) (idx : ℕ) :
    findStartIndexFuel H t (fuel + 1) sum idx =
      if sum < t then
        match H[idx]? with
        | some itemH => findStartIndexFuel H t fuel (sum + itemH) (idx + 1)
        | none => some (idx + 1)
      else some idx := rfl

/-- With at least one unit of fuel per remaining entry plus one for the
final failed read, the fuel-counted loop finishes and returns the loop's
value. -/
lemma findStartIndexFuel_eq (H : List ℤ) (t : ℤ) :
    ∀ fuel rem (sum : ℤ) idx, H.drop idx = rem → rem.length + 1 ≤ fuel →
      findStartIndexFuel H t fuel sum idx = some (findStartIndexAux rem t sum idx) := by
  intro fuel
  induction fuel with
  | zero =>
    intro rem sum idx _ hf
    omega
  | succ fuel ih =>
    intro rem sum idx hrem hf
    cases rem with
    | nil =>
      rw [findStartIndexFuel_succ, List.getElem?_eq_none (length_le_of_drop_eq_nil hrem),
        findStartIndexAux_nil]
      split <;> rfl
    | cons a rest =>
      have hlt : idx < H.length := lt_length_of_drop_eq_cons hrem
      rw [List.drop_eq_getElem_cons hlt, List.cons.injEq] at hrem
      obtain ⟨ha, hrest⟩ := hrem
      rw [findStartIndexFuel_succ, List.getElem?_eq_getElem hlt, ha, findStartIndexAux_cons]
      split
      · exact ih rest (sum + a) (idx + 1) hrest (by simpa using Nat.succ_le_succ_iff.mp hf)
      · rfl

/-! ### Facts about sequences of `updateH` writes -/

lemma applyWrites_cons (H : List ℤ) (p : ℕ × ℤ) (ps : List (ℕ × ℤ)) :
    applyWrites H (p :: ps) = applyWrites (updateH H p.1 p.2) ps := rfl

lemma allPositive_updateH {H : List ℤ} {idx : ℕ} {h : ℤ}
    (hH : allPositive H) (hh : 0 < h) : allPositive (updateH H idx h) := by
  intro x hx
  unfold updateH at hx
  rcases List.mem_or_eq_of_mem_set hx with hx' | rfl
  · exact hH x hx'
  · exact hh

lemma allNonneg_updateH {H : List ℤ} {idx : ℕ} {h : ℤ}
    (hH : allNonneg H) (hh : 0 ≤ h) : allNonneg (updateH H idx h) := by
  intro x hx
  unfold updateH at hx
  rcases List.mem_or_eq_of_mem_set hx with hx' | rfl
  · exact hH x hx'
  · exact hh

lemma allPositive_applyWrites {H : List ℤ} {ws : List (ℕ × ℤ)}
    (hH : allPositive H) (hw : ∀ p ∈ ws, 0 < p.2) : allPositive (applyWrites H ws) := by
  induction ws generalizing H with
  | nil => exact hH
  | cons p ps ih =>
    rw [applyWrites_cons]
    exact ih (allPositive_updateH hH (hw p (List.mem_cons_self p ps)))
      fun q hq => hw q (List.mem_cons_of_mem p hq)

lemma allNonneg_applyWrites {H : List ℤ} {ws : List (ℕ × ℤ)}
    (hH : allNonneg H) (hw : ∀ p ∈ ws, 0 ≤ p.2) : allNonneg (applyWrites H ws) := by
  induction ws generalizing H with
  | nil => exact hH
  | cons p ps ih =>
    rw [applyWrites_cons]
    exact ih (allNonneg_updateH hH (hw p (List.mem_cons_self p ps)))
      fun q hq => hw q (List.mem_cons_of_mem p hq)

/-! ### Claim theorems -/

/-- C1: evaluation of the height effect at a failing input.  On a fresh mount
with two items estimated at 50, the spacer is set to
`getCumulativeHeight (data.length - 1) = 50` while the height store sums to
100; after a measurement write (`updateH 0 80`) the spacer state is still 50
and the store sums to 130.  The claim says the spacer always equals the sum
of all N per-item heights. -/
theorem spacer_height_mismatch :
    spacerHeight (initHeights 2 50) = 50 ∧
    (initHeights 2 50).sum = 100 ∧
    (updateHState ⟨0, initHeights 2 50, spacerHeight (initHeights 2 50), []⟩ 0 80).height = 50 ∧
    (updateHState ⟨0, initHeights 2 50, spacerHeight (initHeights 2 50), []⟩
        0 80).itemHeights.sum = 130 := by
  decide

/-- C2 counterexample: at scrollTop 25 inside the first 50-pixel item with
bufferCount 0, the code resolves start index 1, while the claim's formula
(smallest s with `cumulativeHeight (s+1) > scrollTop`, minus buffer, clamped)
gives 0. -/
theorem findStartIndex_claim_counterexample :
    findStartIndex [(50 : ℤ), 50] 0 25 = 1 ∧ specStartIndex [(50 : ℤ), 50] 0 25 = 0 := by
  decide

/-- C2 amended: for `0 ≤ scrollTop ≤ totalHeight`, the resolved start index
equals the smallest index k with `cumulativeHeight k ≥ scrollTop` (one past
the item containing the offset when the offset falls strictly inside an
item), minus bufferCount, clamped to `≥ 0` by natural subtraction. -/
theorem findStartIndex_characterization (H : List ℤ) (b : ℕ) (t : ℤ)
    (h0 : 0 ≤ t) (hle : t ≤ H.sum) :
    isLeastCoveredIndex H t (findStartIndexAux H t 0 0) ∧
    findStartIndex H b t = findStartIndexAux H t 0 0 - b := by
  have hspec := findStartIndexAux_spec H t H 0 (List.drop_zero H) (Nat.zero_le _)
    (fun j hj => absurd hj (Nat.not_lt_zero j)) hle
  rw [getCumulativeHeight_zero] at hspec
  exact ⟨⟨hspec.2.2, hspec.1, hspec.2.1⟩, rfl⟩

/-- Witness for C2's amended theorem at scrollTop 25 over heights 50, 50. -/
theorem findStartIndex_characterization_witness :
    isLeastCoveredIndex [(50 : ℤ), 50] 25 (findStartIndexAux [(50 : ℤ), 50] 25 0 0) ∧
    findStartIndex [(50 : ℤ), 50] 0 25 = findStartIndexAux [(50 : ℤ), 50] 25 0 0 - 0 :=
  findStartIndex_characterization [50, 50] 0 25 (by decide) (by decide)

/-- C3: evaluation of the render-list construction at a failing input.  For
the resolved window `{0, 1}` the component renders only index 0 — `endIndex`
itself is missing — and for a single-index window `{0, 0}` (every list with
N = 1) it renders nothing at all. -/
theorem renderList_excludes_endIndex :
    renderListOf 0 1 = [0] ∧ (1 : ℕ) ∉ renderListOf 0 1 ∧ renderListOf 0 0 = [] := by
  decide

/-- C5 counterexample: `updateH` stores a zero height verbatim, so the store
invariant `height[i] > 0` is violated by a single non-positive write. -/
theorem updateH_no_clamp_counterexample :
    updateH [(50 : ℤ)] 0 0 = [0] ∧ ¬ allPositive (updateH [(50 : ℤ)] 0 0) := by
  decide

/-- C5 amended: `updateH` performs no rejection or clamping; the store stays
positive exactly when the writes themselves are, i.e. positivity of every
written value (together with a positive initial store) is preserved by any
sequence of writes. -/
theorem heights_positive_of_positive_writes (H : List ℤ) (ws : List (ℕ × ℤ))
    (hH : allPositive H) (hw : ∀ p ∈ ws, 0 < p.2) :
    allPositive (applyWrites H ws) :=
  allPositive_applyWrites hH hw

/-- Witness for C5's amended theorem: one positive write on a positive
store. -/
theorem heights_positive_of_positive_writes_witness :
    allPositive (applyWrites [(50 : ℤ)] [(0, 80)]) :=
  heights_positive_of_positive_writes [50] [(0, 80)] (by decide) (by decide)

/-- C6 counterexample: after the write `updateH 0 (-5)` the cumulative height
is not monotone: `cumulative 0 = 0 > -5 = cumulative 1`. -/
theorem cumulative_not_monotone_counterexample :
    ¬ (getCumulativeHeight (applyWrites [(50 : ℤ), 50] [(0, -5)]) 0 ≤
        getCumulativeHeight (applyWrites [(50 : ℤ), 50] [(0, -5)]) 1) := by
  decide

/-- C6 amended: after any sequence of writes of non-negative heights to a
store with non-negative entries, `getCumulativeHeight` is monotone
non-decreasing in its index argument, and `getCumulativeHeight 0 = 0`
unconditionally. -/
theorem cumulative_monotone_after_writes (H : List ℤ) (ws : List (ℕ × ℤ)) (j k : ℕ)
    (hH : allNonneg H) (hw : ∀ p ∈ ws, 0 ≤ p.2) (hjk : j ≤ k) :
    getCumulativeHeight (applyWrites H ws) j ≤ getCumulativeHeight (applyWrites H ws) k ∧
    getCumulativeHeight (applyWrites H ws) 0 = 0 :=
  ⟨getCumulativeHeight_mono _ (allNonneg_applyWrites hH hw) hjk,
    getCumulativeHeight_zero _⟩

/-- Witness for C6's amended theorem: one write of 80, indices 1 ≤ 2. -/
theorem cumulative_monotone_after_writes_witness :
    getCumulativeHeight (applyWrites [(50 : ℤ), 50] [(0, 80)]) 1 ≤
      getCumulativeHeight (applyWrites [(50 : ℤ), 50] [(0, 80)]) 2 ∧
    getCumulativeHeight (applyWrites [(50 : ℤ), 50] [(0, 80)]) 0 = 0 :=
  cumulative_monotone_after_writes [50, 50] [(0, 80)] 1 2 (by decide) (by decide) (by decide)

/-- C9: the `findStartIndex` loop terminates within `N + 1` iterations for
every store: the fuel-counted loop with `N + 1` units of fuel finishes and
agrees with the loop's value, which never exceeds `N + 1` (the value `N + 1`
is reached exactly when the loop exits through the failed read past the last
index, as on an overscrolled offset). -/
theorem findStartIndex_terminates (H : List ℤ) (t : ℤ)
    (h0 : 0 ≤ t) (hpos : allPositive H) :
    findStartIndexFuel H t (H.length + 1) 0 0 = some (findStartIndexAux H t 0 0) ∧
    findStartIndexAux H t 0 0 ≤ H.length + 1 :=
  ⟨findStartIndexFuel_eq H t (H.length + 1) H 0 0 (List.drop_zero H) (le_refl _),
    findStartIndexAux_le H t H 0 0 (List.drop_zero H) (Nat.zero_le _)⟩

/-- Witness for C9 at an overscrolled offset: one 2-pixel item, scrollTop 10;
the loop exits through the failed read at iteration N + 1 = 2. -/
theorem findStartIndex_terminates_witness :
    findStartIndexFuel [(2 : ℤ)] 10 ([(2 : ℤ)].length + 1) 0 0 =
      some (findStartIndexAux [(2 : ℤ)] 10 0 0) ∧
    findStartIndexAux [(2 : ℤ)] 10 0 0 ≤ [(2 : ℤ)].length + 1 :=
  findStartIndex_terminates [2] 10 (by decide) (by decide)

/-- C10: an in-range `updateH idx h` writes entry `idx` and nothing else —
the store keeps its length, every other entry is unchanged, and the
component's `scrollTop`, spacer `height` and `renderList` states are not
touched synchronously. -/
theorem updateH_frame (s : VListState) (idx : ℕ) (h : ℤ)
    (hidx : idx < s.itemHeights.length) :
    (updateHState s idx h).itemHeights[idx]? = some h ∧
    sameOutside (updateHState s idx h).itemHeights s.itemHeights idx ∧
    (updateHState s idx h).scrollTop = s.scrollTop ∧
    (updateHState s idx h).height = s.height ∧
    (updateHState s idx h).renderList = s.renderList := by
  unfold updateHState updateH sameOutside
  exact ⟨List.getElem?_set_self hidx,
    ⟨List.length_set _ _ _, fun j hj => List.getElem?_set_ne (Ne.symm hj)⟩, rfl, rfl, rfl⟩

/-- Witness for C10: writing 80 at index 0 of a two-item store. -/
theorem updateH_frame_witness :
    (updateHState ⟨0, [50, 50], 50, []⟩ 0 80).itemHeights[0]? = some 80 ∧
    sameOutside (updateHState ⟨0, [50, 50], 50, []⟩ 0 80).itemHeights
      (VListState.mk 0 [50, 50] 50 []).itemHeights 0 ∧
    (updateHState ⟨0, [50, 50], 50, []⟩ 0 80).scrollTop =
      (VListState.mk 0 [50, 50] 50 []).scrollTop ∧
    (updateHState ⟨0, [50, 50], 50, []⟩ 0 80).height =
      (VListState.mk 0 [50, 50] 50 []).height ∧
    (updateHState ⟨0, [50, 50], 50, []⟩ 0 80).renderList =
      (VListState.mk 0 [50, 50] 50 []).renderList :=
  updateH_frame ⟨0, [50, 50], 50, []⟩ 0 80 (by decide)

/-- C4 counterexample: N = 1, heights 50, bufferCount 0, scrollTop 49 — an
offset strictly below the total height.  The resolver yields startIndex 1 and
endIndex 0: the window is inverted and startIndex is out of range. -/
theorem window_invalid_counterexample :
    findStartIndex [(50 : ℤ)] 0 49 = 1 ∧
    findEndIndex [(50 : ℤ)] 100 50 0 (findStartIndex [(50 : ℤ)] 0 49) = 0 ∧
    ¬ ((findStartIndex [(50 : ℤ)] 0 49 : ℤ) ≤
        findEndIndex [(50 : ℤ)] 100 50 0 (findStartIndex [(50 : ℤ)] 0 49)) ∧
    ¬ (findStartIndex [(50 : ℤ)] 0 49 ≤ [(50 : ℤ)].length - 1) := by
  decide

/-- C4 amended: for N > 0 the resolved window satisfies
`startIndex ≤ endIndex` and both lie in `[0, N-1]` provided the raw start
stays on the collection: `scrollTop ≤ cumulativeHeight (N-1)`, or
`bufferCount ≥ 1` with `scrollTop ≤ totalHeight`, or `bufferCount ≥ 2`
unconditionally.  (`startIndex ≥ 0` and `endIndex ≥ 0` hold by type and by
the min with `N-1` over a non-negative loop value.) -/
theorem window_valid (H : List ℤ) (cont est : ℤ) (b : ℕ) (t : ℤ)
    (hN : 0 < H.length) (hpos : allPositive H) (h0 : 0 ≤ t)
    (hcase : t ≤ getCumulativeHeight H (H.length - 1) ∨
      (1 ≤ b ∧ t ≤ H.sum) ∨ 2 ≤ b) :
    (findStartIndex H b t : ℤ) ≤ findEndIndex H cont est b (findStartIndex H b t) ∧
    0 ≤ findEndIndex H cont est b (findStartIndex H b t) ∧
    findEndIndex H cont est b (findStartIndex H b t) ≤ (H.length : ℤ) - 1 ∧
    findStartIndex H b t ≤ H.length - 1 := by
  have hn : allNonneg H := fun x hx => le_of_lt (hpos x hx)
  have hsle : findStartIndex H b t ≤ H.length - 1 := by
    unfold findStartIndex
    rcases hcase with hA | ⟨hb1, hB⟩ | hb2
    · have hle : t ≤ H.sum := le_trans hA (getCumulativeHeight_le_sum H hn _)
      have hspec := findStartIndexAux_spec H t H 0 (List.drop_zero H) (Nat.zero_le _)
        (fun j hj => absurd hj (Nat.not_lt_zero j)) hle
      rw [getCumulativeHeight_zero] at hspec
      by_contra hgt
      have hlen1 : H.length - 1 < findStartIndexAux H t 0 0 := by omega
      have hcum := hspec.2.1 (H.length - 1) hlen1
      linarith
    · have hspec := findStartIndexAux_spec H t H 0 (List.drop_zero H) (Nat.zero_le _)
        (fun j hj => absurd hj (Nat.not_lt_zero j)) hB
      rw [getCumulativeHeight_zero] at hspec
      have hraw := hspec.2.2
      omega
    · have hraw := findStartIndexAux_le H t H 0 0 (List.drop_zero H) (Nat.zero_le _)
      omega
  set s := findStartIndex H b t with hsdef
  have hslt : s < H.length := by omega
  obtain ⟨hL1, hL2⟩ :=
    findEndIndexLoop_bounds H (cont + (b : ℤ) * est) (H.drop s) 0 s s rfl hslt
  unfold findEndIndex
  refine ⟨by omega, by omega, by omega, hsle⟩

/-- Witness for C4's amended theorem: two 50-pixel items, containerHeight
100, bufferCount 0, scrollTop 50 (equal to `cumulativeHeight (N-1)`). -/
theorem window_valid_witness :
    (findStartIndex [(50 : ℤ), 50] 0 50 : ℤ) ≤
      findEndIndex [(50 : ℤ), 50] 100 50 0 (findStartIndex [(50 : ℤ), 50] 0 50) ∧
    0 ≤ findEndIndex [(50 : ℤ), 50] 100 50 0 (findStartIndex [(50 : ℤ), 50] 0 50) ∧
    findEndIndex [(50 : ℤ), 50] 100 50 0 (findStartIndex [(50 : ℤ), 50] 0 50) ≤
      ([(50 : ℤ), 50].length : ℤ) - 1 ∧
    findStartIndex [(50 : ℤ), 50] 0 50 ≤ [(50 : ℤ), 50].length - 1 :=
  window_valid [50, 50] 100 50 0 50 (by decide) (by decide) (by decide) (Or.inl (by decide))

/-- C7 counterexample: N = 1, heights 50, bufferCount 0, scrollTop 100 >
totalHeight 50.  The raw start index walks past the end to 2, so
startIndex 2 > endIndex 0: the returned window is not valid (its endIndex is
nevertheless N-1 = 0). -/
theorem overscroll_invalid_counterexample :
    findStartIndex [(50 : ℤ)] 0 100 = 2 ∧
    findEndIndex [(50 : ℤ)] 100 50 0 (findStartIndex [(50 : ℤ)] 0 100) = 0 ∧
    ¬ ((findStartIndex [(50 : ℤ)] 0 100 : ℤ) ≤
        findEndIndex [(50 : ℤ)] 100 50 0 (findStartIndex [(50 : ℤ)] 0 100)) := by
  decide

/-- C7 amended: when scrollTop exceeds the total height and `bufferCount ≥
2`, the resolver returns a valid window ending exactly at N-1: the endIndex
is `N-1`, `startIndex ≤ endIndex`, and startIndex is in range.  (With
`bufferCount < 2` the endIndex is still N-1 but the startIndex exceeds N-1,
as the counterexample shows.) -/
theorem overscroll_endIndex_last (H : List ℤ) (cont est : ℤ) (b : ℕ) (t : ℤ)
    (hN : 0 < H.length) (hpos : allPositive H) (hover : H.sum < t) (hb : 2 ≤ b) :
    findEndIndex H cont est b (findStartIndex H b t) = (H.length : ℤ) - 1 ∧
    (findStartIndex H b t : ℤ) ≤ findEndIndex H cont est b (findStartIndex H b t) ∧
    findStartIndex H b t ≤ H.length - 1 := by
  have hn : allNonneg H := fun x hx => le_of_lt (hpos x hx)
  have hraw : findStartIndexAux H t 0 0 = H.length + 1 := by
    have hov := findStartIndexAux_over H t hn hover H 0 (List.drop_zero H) (Nat.zero_le _)
    rwa [getCumulativeHeight_zero] at hov
  have hs : findStartIndex H b t = H.length + 1 - b := by
    unfold findStartIndex
    rw [hraw]
  set s := findStartIndex H b t with hsdef
  have hslt : s < H.length := by omega
  obtain ⟨hL1, hL2⟩ :=
    findEndIndexLoop_bounds H (cont + (b : ℤ) * est) (H.drop s) 0 s s rfl hslt
  unfold findEndIndex
  refine ⟨by omega, by omega, by omega⟩

/-- Witness for C7's amended theorem: one 50-pixel item, bufferCount 2,
scrollTop 100 beyond the total height 50. -/
theorem overscroll_endIndex_last_witness :
    findEndIndex [(50 : ℤ)] 100 50 2 (findStartIndex [(50 : ℤ)] 2 100) =
      ([(50 : ℤ)].length : ℤ) - 1 ∧
    (findStartIndex [(50 : ℤ)] 2 100 : ℤ) ≤
      findEndIndex [(50 : ℤ)] 100 50 2 (findStartIndex [(50 : ℤ)] 2 100) ∧
    findStartIndex [(50 : ℤ)] 2 100 ≤ [(50 : ℤ)].length - 1 :=
  overscroll_endIndex_last [50] 100 50 2 100 (by decide) (by decide) (by decide) (by decide)

/-- C8 counterexample: with the invalid parameter `containerHeight = -10`
(≤ 0) nothing is rejected — the component proceeds and resolves the
degenerate window `{0, 0}` with an empty render list at scrollTop 0. -/
theorem no_validation_counterexample :
    (-10 : ℤ) ≤ 0 ∧
    findStartIndex [(50 : ℤ), 50] 0 0 = 0 ∧
    findEndIndex [(50 : ℤ), 50] (-10) 50 0 (findStartIndex [(50 : ℤ), 50] 0 0) = 0 ∧
    renderListOf (findStartIndex [(50 : ℤ), 50] 0 0)
      (findEndIndex [(50 : ℤ), 50] (-10) 50 0 (findStartIndex [(50 : ℤ), 50] 0 0)) = [] := by
  decide

/-- C8 amended: construction performs no parameter validation.  Any
`containerHeight ≤ 0` is accepted and the component still resolves a window —
at scrollTop 0 with bufferCount 0 the degenerate window `{0, 0}`, rendering
nothing — instead of raising a configuration error. -/
theorem invalid_params_accepted (H : List ℤ) (cont est : ℤ)
    (hc : cont ≤ 0) (hN : 0 < H.length) (hpos : allPositive H) :
    findStartIndex H 0 0 = 0 ∧
    findEndIndex H cont est 0 (findStartIndex H 0 0) = 0 ∧
    renderListOf (findStartIndex H 0 0)
      (findEndIndex H cont est 0 (findStartIndex H 0 0)) = [] := by
  have hs : findStartIndex H 0 0 = 0 := by
    unfold findStartIndex
    cases H with
    | nil => rw [findStartIndexAux_nil, if_neg (lt_irrefl (0 : ℤ))]
    | cons a rest => rw [findStartIndexAux_cons, if_neg (lt_irrefl (0 : ℤ))]
  have he : findEndIndex H cont est 0 0 = 0 := by
    obtain ⟨a, rest, rfl⟩ :=
      List.exists_cons_of_ne_nil (List.ne_nil_of_length_pos hN)
    have hpa : 0 < a := hpos a (List.mem_cons_self a rest)
    unfold findEndIndex
    rw [List.drop_zero, findEndIndexLoop_cons]
    have hcond : (0 : ℤ) + a > cont + ((0 : ℕ) : ℤ) * est := by
      push_cast
      linarith
    rw [if_pos hcond]
    have hlen : 0 < (a :: rest).length := by simp
    push_cast
    omega
  refine ⟨hs, ?_, ?_⟩
  · rw [hs]
    exact he
  · rw [hs, he]
    rfl

/-- Witness for C8's amended theorem: a single 50-pixel item with
`containerHeight = -10`. -/
theorem invalid_params_accepted_witness :
    findStartIndex [(50 : ℤ)] 0 0 = 0 ∧
    findEndIndex [(50 : ℤ)] (-10) 50 0 (findStartIndex [(50 : ℤ)] 0 0) = 0 ∧
    renderListOf (findStartIndex [(50 : ℤ)] 0 0)
      (findEndIndex [(50 : ℤ)] (-10) 50 0 (findStartIndex [(50 : ℤ)] 0 0)) = [] :=
  invalid_params_accepted [50] (-10) 50 (by decide) (by decide) (by decide)

end VList
